import Mathlib

/-
Verification development for the Focus/Arrangement Controller of velox
(velox/velox.c).

The controller mutates a registry of workspaces.  Each workspace owns a
tiled window list with an explicit focus cursor, a floated window list
whose first element is by convention the focused one, a focus mode flag,
and a layout cursor with a per-workspace layout state.

Windows are identified by natural numbers.  The intrusive doubly linked
lists of list.h are modelled as ordered lists of window identifiers; a
link pointer into a window list is modelled as the identifier of the
window the link is embedded in, with `none` standing for the sentinel
head link of the list.  Side effects on external collaborators
(show_window, hide_window, focus, run_hooks, restack and the arrange
entry point) are collected in an effect trace, in call order.
-/

inductive velox_workspace_focus_type
  | TILE
  | FLOAT
deriving DecidableEq

open velox_workspace_focus_type

/-- Modelled from the spec: the tiled sub-structure of a workspace
(workspace.h is not under src) — an ordered window list together with
the focus cursor link; `none` denotes the sentinel head link. -/
structure velox_tiled where
  windows : List Nat
  focus : Option Nat
deriving DecidableEq

/-- Modelled from the spec: a layout owns a default state value of fixed
structural size (layout-private.h is not under src); the opaque state
blob is abstracted as a natural number. -/
structure velox_layout where
  default_state : Nat
deriving DecidableEq

/-- Modelled from the spec: a workspace (workspace.h is not under src):
focus mode flag, tiled list with cursor, floated list (first element is
the focused one by convention), available layouts with a cursor into
them, and the workspace-local layout state. -/
structure velox_workspace where
  focus_type : velox_workspace_focus_type
  tiled : velox_tiled
  floated : List Nat
  layouts : List velox_layout
  layout : Nat
  state : Nat
deriving DecidableEq

/-- Modelled from the spec: the global state of velox.c — the workspace
registry (the `workspaces` vector), the index of the active workspace
(the `workspace` / `active_workspace` global: per the spec there is one
globally active index), and the per-window `floating` flag of the window
records (window.h is not under src). -/
structure VeloxState where
  workspaces : List velox_workspace
  active : Nat
  floating : Nat → Bool

def null_workspace : velox_workspace := ⟨TILE, ⟨[], none⟩, [], [], 0, 0⟩

/-- Embedding of workspace_at: element lookup in the workspace vector. -/
def workspace_at (s : VeloxState) (i : Nat) : velox_workspace :=
  s.workspaces.getD i null_workspace

/-- The workspace the `workspace` global points at (the active one). -/
def active_ws (s : VeloxState) : velox_workspace :=
  workspace_at s s.active

/-- Modelled from the spec: list.h's list_next_link (list.h is not under
src) — the successor link of `cur`, with wraparound relative to the
sentinel: the sentinel is skipped, so the successor of the last element
is the first one.  For the sentinel itself the successor is the first
element (`none` on an empty list). -/
def list_next_link (l : List Nat) (cur : Option Nat) : Option Nat :=
  match cur with
  | none => l.head?
  | some w =>
    if h : l.indexOf w < l.length then
      some (l.get ⟨(l.indexOf w + 1) % l.length,
        Nat.mod_lt _ (Nat.lt_of_le_of_lt (Nat.zero_le _) h)⟩)
    else none

/-- Modelled from the spec: list.h's list_prev_link (list.h is not under
src) — the predecessor link with wraparound relative to the sentinel:
the predecessor of the first element is the last one. -/
def list_prev_link (l : List Nat) (cur : Option Nat) : Option Nat :=
  match cur with
  | none => l.getLast?
  | some w =>
    if h : l.indexOf w < l.length then
      some (l.get ⟨(l.indexOf w + l.length - 1) % l.length,
        Nat.mod_lt _ (Nat.lt_of_le_of_lt (Nat.zero_le _) h)⟩)
    else none

/-- Transposition of the two identifiers `a` and `b`. -/
def swap_val (a b x : Nat) : Nat :=
  if x = a then b else if x = b then a else x

/-- Modelled from the spec: list.h's link_swap (list.h is not under src)
exchanges the positions of two links; on a duplicate-free identifier
list this is the transposition of the two values. -/
def link_swap (l : List Nat) (a b : Nat) : List Nat :=
  l.map (swap_val a b)

/-- Effects issued to external collaborators, in call order.
`focus_call none` is focus(NULL). -/
inductive VEffect
  | show_window (w : Nat)
  | hide_window (w : Nat)
  | focus_call (w : Option Nat)
  | arrange_call
  | restack_call
  | hook_workspace_changed
deriving DecidableEq

/-- Embedding of update_focus (velox.c:80-98): the argument of the
single focus call it makes.  If the tiled cursor is the sentinel while
the tiled list is non-empty the C would read an invalid entry; the model
returns `none` in that (invariant-excluded) state. -/
def update_focus (ws : velox_workspace) : Option Nat :=
  if ws.focus_type = TILE then
    if ws.tiled.windows = [] then none
    else ws.tiled.focus
  else
    if ws.floated = [] then none
    else ws.floated.head?

/-- Embedding of set_workspace (velox.c:100-138).  The pointer test
`workspace == workspace_at(index)` is index equality with the active
index.  Effects: show target windows (tiled then floated), update the
target's focus, hide the old windows, arrange if the (new) workspace is
tiled, then the workspace-changed hook. -/
def set_workspace (s : VeloxState) (index : Nat) : VeloxState × List VEffect :=
  if index = s.active then (s, [])
  else
    let tgt := workspace_at s index
    let src := active_ws s
    (⟨s.workspaces, index, s.floating⟩,
      tgt.tiled.windows.map VEffect.show_window ++
      tgt.floated.map VEffect.show_window ++
      [VEffect.focus_call (update_focus tgt)] ++
      src.tiled.windows.map VEffect.hide_window ++
      src.floated.map VEffect.hide_window ++
      (if tgt.focus_type = TILE then [VEffect.arrange_call] else []) ++
      [VEffect.hook_workspace_changed])

/-- Embedding of move_focus_to_workspace (velox.c:140-224).  When
`index` equals the active index, `workspace_at(index)` aliases the
active workspace and every write lands on the same record, so the
embedding splits on that equality.  In the tiled branch the focused
window's link is moved after the target list's head (to its front); the
singular test then (line 161) may set the target cursor, the emptiness
test (line 168) may redirect `next_focus` to the sentinel and flip the
source mode, and line 180 assigns the source cursor (the same field as
the target cursor in the aliased case).  A sentinel cursor with a
non-empty tiled list would be undefined in C; the model no-ops there. -/
def move_focus_to_workspace (s : VeloxState) (index : Nat) : VeloxState × List VEffect :=
  let src := active_ws s
  if src.focus_type = TILE then
    if src.tiled.windows = [] then (s, [])
    else
      match src.tiled.focus with
      | none => (s, [])
      | some w =>
        let next_focus := list_next_link src.tiled.windows (some w)
        if index = s.active then
          let l' := w :: src.tiled.windows.erase w
          let src1 : velox_workspace := { src with tiled := ⟨l', next_focus⟩ }
          let src2 := if src1.floated = [] then { src1 with focus_type := TILE } else src1
          (⟨s.workspaces.set s.active src2, s.active, s.floating⟩,
            [VEffect.focus_call (update_focus src1), VEffect.hide_window w,
              VEffect.arrange_call])
        else
          let tgt := workspace_at s index
          let tl' := w :: tgt.tiled.windows
          let tf' := if tl'.length = 1 then tl'.head? else tgt.tiled.focus
          let sl' := src.tiled.windows.erase w
          let nf' := if sl' = [] then (none : Option Nat) else next_focus
          let st' := if sl' = [] ∧ src.floated ≠ [] then FLOAT else src.focus_type
          let src' : velox_workspace := { src with focus_type := st', tiled := ⟨sl', nf'⟩ }
          let tgt1 : velox_workspace := { tgt with tiled := ⟨tl', tf'⟩ }
          let tgt2 := if tgt1.floated = [] then { tgt1 with focus_type := TILE } else tgt1
          (⟨(s.workspaces.set s.active src').set index tgt2, s.active, s.floating⟩,
            [VEffect.focus_call (update_focus src'), VEffect.hide_window w,
              VEffect.arrange_call])
  else
    match src.floated with
    | [] => (s, [])
    | w :: rest =>
      if index = s.active then
        let src1 : velox_workspace := { src with floated := rest ++ [w] }
        let src2 := if src1.tiled.windows = [] then { src1 with focus_type := FLOAT } else src1
        (⟨s.workspaces.set s.active src2, s.active, s.floating⟩,
          [VEffect.focus_call (update_focus src1), VEffect.hide_window w,
            VEffect.arrange_call])
      else
        let tgt := workspace_at s index
        let st' := if rest = [] then TILE else src.focus_type
        let src' : velox_workspace := { src with focus_type := st', floated := rest }
        let tgt1 : velox_workspace := { tgt with floated := tgt.floated ++ [w] }
        let tgt2 := if tgt1.tiled.windows = [] then { tgt1 with focus_type := FLOAT } else tgt1
        (⟨(s.workspaces.set s.active src').set index tgt2, s.active, s.floating⟩,
          [VEffect.focus_call (update_focus src'), VEffect.hide_window w,
            VEffect.arrange_call])

/-- Embedding of set_focus_type (velox.c:226-242). -/
def set_focus_type (s : VeloxState) (ft : velox_workspace_focus_type) :
    VeloxState × List VEffect :=
  let ws := active_ws s
  if ws.focus_type = ft then (s, [])
  else if ft = TILE ∧ ws.tiled.windows ≠ [] then
    (⟨s.workspaces.set s.active { ws with focus_type := ft }, s.active, s.floating⟩,
      [VEffect.focus_call ws.tiled.focus])
  else if ft = FLOAT ∧ ws.floated ≠ [] then
    (⟨s.workspaces.set s.active { ws with focus_type := ft }, s.active, s.floating⟩,
      [VEffect.focus_call ws.floated.head?])
  else (s, [])

/-- Embedding of set_layout (velox.c:290-300): move the layout cursor to
`link` (an index into the workspace's layouts list), overwrite the
workspace state with that layout's default state (the memcpy of
default_state_size bytes), then call arrange. -/
def set_layout (s : VeloxState) (link : Nat) : VeloxState × List VEffect :=
  let ws := active_ws s
  let layout := ws.layouts.getD link ⟨0⟩
  (⟨s.workspaces.set s.active { ws with layout := link, state := layout.default_state },
      s.active, s.floating⟩,
    [VEffect.arrange_call])

/-- Embedding of next_workspace (velox.c:244-262): the linear scan over
the workspace vector stops at the active workspace, yielding the active
index (the spec's single active index); the uint8 increment wraps at
256 and the size test resets the index to 0 at the end of the vector;
set_workspace is then invoked. -/
def next_workspace (s : VeloxState) : VeloxState × List VEffect :=
  let i1 := (s.active + 1) % 256
  let i2 := if i1 = s.workspaces.length then 0 else i1
  set_workspace s i2

/-- Embedding of focus_next (velox.c:316-348).  Tiled: advance the
cursor cyclically and focus it (no-op on a trivial list).  Floating:
move the last floated window to the front of the list, focus it and
restack. -/
def focus_next (s : VeloxState) : VeloxState × List VEffect :=
  let ws := active_ws s
  if ws.focus_type = TILE then
    if ws.tiled.windows.length < 2 then (s, [])
    else
      let f' := list_next_link ws.tiled.windows ws.tiled.focus
      (⟨s.workspaces.set s.active { ws with tiled := ⟨ws.tiled.windows, f'⟩ },
          s.active, s.floating⟩,
        [VEffect.focus_call f'])
  else
    if ws.floated.length < 2 then (s, [])
    else
      match ws.floated.getLast? with
      | none => (s, [])
      | some w =>
        (⟨s.workspaces.set s.active { ws with floated := w :: ws.floated.dropLast },
            s.active, s.floating⟩,
          [VEffect.focus_call (some w), VEffect.restack_call])

/-- Embedding of focus_previous (velox.c:350-382).  Tiled: retreat the
cursor cyclically and focus it.  Floating: move the first floated
window before the head sentinel — to the tail of the list — focus it
and restack. -/
def focus_previous (s : VeloxState) : VeloxState × List VEffect :=
  let ws := active_ws s
  if ws.focus_type = TILE then
    if ws.tiled.windows.length < 2 then (s, [])
    else
      let f' := list_prev_link ws.tiled.windows ws.tiled.focus
      (⟨s.workspaces.set s.active { ws with tiled := ⟨ws.tiled.windows, f'⟩ },
          s.active, s.floating⟩,
        [VEffect.focus_call f'])
  else
    match ws.floated with
    | [] => (s, [])
    | w :: rest =>
      if ws.floated.length < 2 then (s, [])
      else
        (⟨s.workspaces.set s.active { ws with floated := rest ++ [w] },
            s.active, s.floating⟩,
          [VEffect.focus_call (some w), VEffect.restack_call])

/-- Embedding of move_next (velox.c:384-403): swap the focused window
with its cyclic successor; the cursor link still belongs to the same
window.  A sentinel cursor with two or more tiled windows would be
undefined in C; the model no-ops there. -/
def move_next (s : VeloxState) : VeloxState × List VEffect :=
  let ws := active_ws s
  if ws.focus_type = TILE then
    if ws.tiled.windows.length < 2 then (s, [])
    else
      match ws.tiled.focus with
      | none => (s, [])
      | some w =>
        match list_next_link ws.tiled.windows (some w) with
        | none => (s, [])
        | some v =>
          (⟨s.workspaces.set s.active
              { ws with tiled := ⟨link_swap ws.tiled.windows w v, ws.tiled.focus⟩ },
              s.active, s.floating⟩,
            [VEffect.arrange_call])
  else (s, [])

/-- Embedding of move_previous (velox.c:405-424): swap the focused
window with its cyclic predecessor. -/
def move_previous (s : VeloxState) : VeloxState × List VEffect :=
  let ws := active_ws s
  if ws.focus_type = TILE then
    if ws.tiled.windows.length < 2 then (s, [])
    else
      match ws.tiled.focus with
      | none => (s, [])
      | some w =>
        match list_prev_link ws.tiled.windows (some w) with
        | none => (s, [])
        | some v =>
          (⟨s.workspaces.set s.active
              { ws with tiled := ⟨link_swap ws.tiled.windows w v, ws.tiled.focus⟩ },
              s.active, s.floating⟩,
            [VEffect.arrange_call])
  else (s, [])

/-- Embedding of toggle_floating (velox.c:426-467).  Tiled branch: the
focused window goes to the front of the floated list, the cursor
advances to its cyclic successor (computed before the unlink), the
floating flag is set and the mode flips to FLOAT.  Floating branch: the
first floated window goes to the front of the tiled list and becomes
the cursor, the flag is cleared and the mode flips to TILE. -/
def toggle_floating (s : VeloxState) : VeloxState × List VEffect :=
  let ws := active_ws s
  if ws.focus_type = TILE then
    if ws.tiled.windows = [] then (s, [])
    else
      match ws.tiled.focus with
      | none => (s, [])
      | some w =>
        let ws' : velox_workspace :=
          { ws with focus_type := FLOAT,
                    tiled := ⟨ws.tiled.windows.erase w,
                              list_next_link ws.tiled.windows (some w)⟩,
                    floated := w :: ws.floated }
        (⟨s.workspaces.set s.active ws', s.active,
            fun x => if x = w then true else s.floating x⟩,
          [VEffect.focus_call (update_focus ws'), VEffect.restack_call,
            VEffect.arrange_call])
  else
    match ws.floated with
    | [] => (s, [])
    | w :: rest =>
      let ws' : velox_workspace :=
        { ws with focus_type := TILE,
                  tiled := ⟨w :: ws.tiled.windows, some w⟩,
                  floated := rest }
      (⟨s.workspaces.set s.active ws', s.active,
          fun x => if x = w then false else s.floating x⟩,
        [VEffect.focus_call (update_focus ws'), VEffect.restack_call,
          VEffect.arrange_call])

/-- The commands of the Focus/Arrangement Controller named by the
invariant claim. -/
inductive VCmd
  | cmd_set_workspace (index : Nat)
  | cmd_move_focus (index : Nat)
  | cmd_set_focus_type (ft : velox_workspace_focus_type)
  | cmd_focus_next
  | cmd_focus_previous
  | cmd_move_next
  | cmd_move_previous
  | cmd_toggle_floating

def applyCmd (c : VCmd) (s : VeloxState) : VeloxState × List VEffect :=
  match c with
  | .cmd_set_workspace i => set_workspace s i
  | .cmd_move_focus i => move_focus_to_workspace s i
  | .cmd_set_focus_type ft => set_focus_type s ft
  | .cmd_focus_next => focus_next s
  | .cmd_focus_previous => focus_previous s
  | .cmd_move_next => move_next s
  | .cmd_move_previous => move_previous s
  | .cmd_toggle_floating => toggle_floating s

/-- Workspace-index arguments must be in range (the assert in
set_workspace; an out-of-range workspace_at would be undefined). -/
def cmdOK (c : VCmd) (s : VeloxState) : Prop :=
  match c with
  | .cmd_set_workspace i => i < s.workspaces.length
  | .cmd_move_focus i => i < s.workspaces.length
  | _ => True

/-- The focus cursor link denotes a member of the list. -/
def focusIn (o : Option Nat) (l : List Nat) : Prop :=
  match o with
  | none => False
  | some w => w ∈ l

instance (o : Option Nat) (l : List Nat) : Decidable (focusIn o l) :=
  match o with
  | none => isFalse fun h => h
  | some w => inferInstanceAs (Decidable (w ∈ l))

/-- All windows a workspace holds, tiled then floated. -/
def wsWindows (ws : velox_workspace) : List Nat :=
  ws.tiled.windows ++ ws.floated

/-- Per-workspace well-formedness: no window appears twice (a window is
a member of at most one list), and a non-empty tiled list has a valid
focus cursor. -/
def wsOK (ws : velox_workspace) : Prop :=
  (wsWindows ws).Nodup ∧
  (ws.tiled.windows ≠ [] → focusIn ws.tiled.focus ws.tiled.windows)

/-- Global well-formedness: the active index is in range, every
workspace is well formed, and no window belongs to two workspaces. -/
def WF (s : VeloxState) : Prop :=
  s.active < s.workspaces.length ∧
  (∀ i, i < s.workspaces.length → wsOK (workspace_at s i)) ∧
  (∀ i, i < s.workspaces.length → ∀ j, j < s.workspaces.length → i ≠ j →
    ∀ a, a ∈ wsWindows (workspace_at s i) → a ∉ wsWindows (workspace_at s j))

instance (ws : velox_workspace) : Decidable (wsOK ws) :=
  inferInstanceAs (Decidable ((wsWindows ws).Nodup ∧
    (ws.tiled.windows ≠ [] → focusIn ws.tiled.focus ws.tiled.windows)))

/-- One pair of the cross-workspace disjointness condition of `WF`. -/
def wsDisjointAt (s : VeloxState) (i j : Nat) : Prop :=
  i ≠ j → ∀ a, a ∈ wsWindows (workspace_at s i) → a ∉ wsWindows (workspace_at s j)

instance (s : VeloxState) (i j : Nat) : Decidable (wsDisjointAt s i j) :=
  inferInstanceAs (Decidable (i ≠ j →
    ∀ a, a ∈ wsWindows (workspace_at s i) → a ∉ wsWindows (workspace_at s j)))

/-- One row of the cross-workspace disjointness condition of `WF`. -/
def wsDisjointRow (s : VeloxState) (i : Nat) : Prop :=
  ∀ j, j < s.workspaces.length → wsDisjointAt s i j

instance (s : VeloxState) (i : Nat) : Decidable (wsDisjointRow s i) :=
  inferInstanceAs (Decidable (∀ j, j < s.workspaces.length → wsDisjointAt s i j))

instance (s : VeloxState) : Decidable (WF s) :=
  inferInstanceAs (Decidable (s.active < s.workspaces.length ∧
    (∀ i, i < s.workspaces.length → wsOK (workspace_at s i)) ∧
    (∀ i, i < s.workspaces.length → wsDisjointRow s i)))

instance (c : VCmd) (s : VeloxState) : Decidable (cmdOK c s) :=
  match c with
  | .cmd_set_workspace i => inferInstanceAs (Decidable (i < s.workspaces.length))
  | .cmd_move_focus i => inferInstanceAs (Decidable (i < s.workspaces.length))
  | .cmd_set_focus_type _ => inferInstanceAs (Decidable True)
  | .cmd_focus_next => inferInstanceAs (Decidable True)
  | .cmd_focus_previous => inferInstanceAs (Decidable True)
  | .cmd_move_next => inferInstanceAs (Decidable True)
  | .cmd_move_previous => inferInstanceAs (Decidable True)
  | .cmd_toggle_floating => inferInstanceAs (Decidable True)

/-! Helper lemmas about the list model. -/

theorem getD_set_self {α : Type} (l : List α) (i : Nat) (x d : α)
    (h : i < l.length) : (l.set i x).getD i d = x := by
  simp [List.getD_eq_getElem?_getD, List.getElem?_set_self h]

theorem getD_set_ne {α : Type} (l : List α) (i j : Nat) (x d : α)
    (h : i ≠ j) : (l.set i x).getD j d = l.getD j d := by
  simp [List.getD_eq_getElem?_getD, List.getElem?_set_ne h]

theorem focusIn_of_perm {o : Option Nat} {l l' : List Nat} (hp : l.Perm l')
    (h : focusIn o l) : focusIn o l' := by
  cases o with
  | none => exact h.elim
  | some w => exact hp.mem_iff.mp h

theorem list_next_link_some_mem {l : List Nat} {w : Nat} (hw : w ∈ l) :
    focusIn (list_next_link l (some w)) l := by
  have hi : l.indexOf w < l.length := List.indexOf_lt_length.mpr hw
  simp only [list_next_link, dif_pos hi]
  exact List.get_mem _ _ _

theorem list_prev_link_some_mem {l : List Nat} {w : Nat} (hw : w ∈ l) :
    focusIn (list_prev_link l (some w)) l := by
  have hi : l.indexOf w < l.length := List.indexOf_lt_length.mpr hw
  simp only [list_prev_link, dif_pos hi]
  exact List.get_mem _ _ _

theorem list_next_link_mem_erase {l : List Nat} {w : Nat} (hnd : l.Nodup)
    (hw : w ∈ l) (hne : l.erase w ≠ []) :
    focusIn (list_next_link l (some w)) (l.erase w) := by
  have hi : l.indexOf w < l.length := List.indexOf_lt_length.mpr hw
  have hlen2 : 2 ≤ l.length := by
    have h1 : (l.erase w).length = l.length - 1 := List.length_erase_of_mem hw
    have h2 : 0 < (l.erase w).length := List.length_pos.mpr hne
    omega
  simp only [list_next_link, dif_pos hi]
  set i := l.indexOf w with hidef
  set j := (i + 1) % l.length with hjdef
  have hj : j < l.length := Nat.mod_lt _ (by omega)
  have hji : j ≠ i := by
    rcases Nat.lt_or_ge (i + 1) l.length with h | h
    · have : j = i + 1 := by rw [hjdef, Nat.mod_eq_of_lt h]
      omega
    · have hin : i + 1 = l.length := by omega
      have : j = 0 := by rw [hjdef, hin, Nat.mod_self]
      omega
  have hiw : l.get ⟨i, hi⟩ = w := List.indexOf_get hi
  have hne2 : l.get ⟨j, hj⟩ ≠ w := by
    intro hcon
    have h2 : (⟨j, hj⟩ : Fin l.length) = ⟨i, hi⟩ :=
      hnd.get_inj_iff.mp (hcon.trans hiw.symm)
    exact hji (congrArg Fin.val h2)
  show l.get ⟨j, hj⟩ ∈ l.erase w
  rw [List.mem_erase_of_ne hne2]
  exact List.get_mem _ _ _

theorem swap_val_invol (a b x : Nat) : swap_val a b (swap_val a b x) = x := by
  unfold swap_val
  split_ifs <;> omega

theorem swap_val_inj (a b : Nat) : Function.Injective (swap_val a b) := by
  intro x y h
  unfold swap_val at h
  split_ifs at h <;> omega

theorem swap_val_left (a b : Nat) : swap_val a b a = b := by
  unfold swap_val
  split_ifs <;> omega

theorem swap_val_right (a b : Nat) : swap_val a b b = a := by
  unfold swap_val
  split_ifs <;> omega

theorem link_swap_invol (l : List Nat) (a b : Nat) :
    link_swap (link_swap l a b) a b = l := by
  simp only [link_swap, List.map_map]
  have h : swap_val a b ∘ swap_val a b = id := funext fun x => swap_val_invol a b x
  rw [h, List.map_id]

theorem link_swap_length (l : List Nat) (a b : Nat) :
    (link_swap l a b).length = l.length := by
  simp [link_swap]

theorem count_link_swap (l : List Nat) (a b x : Nat) :
    (link_swap l a b).count x = l.count (swap_val a b x) := by
  have h := List.count_map_of_injective l (swap_val a b) (swap_val_inj a b)
    (swap_val a b x)
  rw [link_swap, ← h, swap_val_invol]

theorem link_swap_perm {l : List Nat} {a b : Nat} (hnd : l.Nodup)
    (ha : a ∈ l) (hb : b ∈ l) : (link_swap l a b).Perm l := by
  rw [List.perm_iff_count]
  intro x
  rw [count_link_swap]
  unfold swap_val
  split_ifs with h1 h2
  · subst h1
    rw [List.count_eq_one_of_mem hnd ha, List.count_eq_one_of_mem hnd hb]
  · subst h2
    rw [List.count_eq_one_of_mem hnd ha, List.count_eq_one_of_mem hnd hb]
  · rfl

theorem rotate_last_perm {l : List Nat} {w : Nat} (h : l.getLast? = some w) :
    (w :: l.dropLast).Perm l := by
  have hne : l ≠ [] := by
    intro h0
    rw [h0] at h
    exact Option.noConfusion h
  have hw : w = l.getLast hne := by
    rw [List.getLast?_eq_getLast l hne] at h
    exact (Option.some.inj h).symm
  have hconcat : l.dropLast ++ [w] = l := by
    rw [hw]
    exact List.dropLast_concat_getLast hne
  calc (w :: l.dropLast).Perm (l.dropLast ++ [w]) :=
        (List.perm_append_singleton w l.dropLast).symm
    _ = l := hconcat

theorem cyc_next_idx_ne {n i : Nat} (hi : i < n) (h2 : 2 ≤ n) : (i + 1) % n ≠ i := by
  rcases Nat.lt_or_ge (i + 1) n with h | h
  · rw [Nat.mod_eq_of_lt h]
    omega
  · have hin : i + 1 = n := by omega
    rw [hin, Nat.mod_self]
    omega

theorem cyc_prev_of_next {n i : Nat} (hi : i < n) (h2 : 2 ≤ n) :
    ((i + 1) % n + n - 1) % n = i := by
  rcases Nat.lt_or_ge (i + 1) n with h | h
  · rw [Nat.mod_eq_of_lt h]
    have h3 : i + 1 + n - 1 = i + n := by omega
    rw [h3, Nat.add_mod_right, Nat.mod_eq_of_lt hi]
  · have hin : i + 1 = n := by omega
    rw [hin, Nat.mod_self]
    have h3 : 0 + n - 1 = n - 1 := by omega
    rw [h3, Nat.mod_eq_of_lt (by omega)]
    omega

theorem link_swap_get (l : List Nat) (a b : Nat) (k : Nat) (hk : k < l.length)
    (hk' : k < (link_swap l a b).length) :
    (link_swap l a b).get ⟨k, hk'⟩ = swap_val a b (l.get ⟨k, hk⟩) := by
  simp [link_swap, List.get_eq_getElem, List.getElem_map]

theorem list_prev_link_link_swap {l : List Nat} {w v : Nat} (hnd : l.Nodup)
    (hw : w ∈ l) (h2 : 2 ≤ l.length) (hv : list_next_link l (some w) = some v) :
    list_prev_link (link_swap l w v) (some w) = some v := by
  have hi : l.indexOf w < l.length := List.indexOf_lt_length.mpr hw
  simp only [list_next_link, dif_pos hi] at hv
  have hjn : (l.indexOf w + 1) % l.length < l.length := Nat.mod_lt _ (by omega)
  have hvj : l.get ⟨(l.indexOf w + 1) % l.length, hjn⟩ = v := Option.some.inj hv
  have hiw : l.get ⟨l.indexOf w, hi⟩ = w := List.indexOf_get hi
  have hji : (l.indexOf w + 1) % l.length ≠ l.indexOf w := cyc_next_idx_ne hi h2
  have hvmem : v ∈ l := by
    rw [← hvj]
    exact List.get_mem _ _ _
  have hperm : (link_swap l w v).Perm l := link_swap_perm hnd hw hvmem
  have hnd' : (link_swap l w v).Nodup := hperm.symm.nodup hnd
  have hlen' : (link_swap l w v).length = l.length := link_swap_length l w v
  have hvw : v ≠ w := by
    intro hcon
    have h3 : (⟨(l.indexOf w + 1) % l.length, hjn⟩ : Fin l.length) =
        ⟨l.indexOf w, hi⟩ := hnd.get_inj_iff.mp (by rw [hvj, hiw, hcon])
    exact hji (congrArg Fin.val h3)
  have hjn' : (l.indexOf w + 1) % l.length < (link_swap l w v).length := by
    rw [hlen']
    exact hjn
  have hl'j : (link_swap l w v).get ⟨(l.indexOf w + 1) % l.length, hjn'⟩ = w := by
    rw [link_swap_get l w v _ hjn hjn', hvj]
    unfold swap_val
    split_ifs <;> omega
  have hwmem' : w ∈ link_swap l w v := hperm.mem_iff.mpr hw
  have hk : (link_swap l w v).indexOf w < (link_swap l w v).length :=
    List.indexOf_lt_length.mpr hwmem'
  have hindexOf : (link_swap l w v).indexOf w = (l.indexOf w + 1) % l.length := by
    have hkw : (link_swap l w v).get ⟨(link_swap l w v).indexOf w, hk⟩ = w :=
      List.indexOf_get hk
    have h3 : (⟨(link_swap l w v).indexOf w, hk⟩ : Fin (link_swap l w v).length) =
        ⟨(l.indexOf w + 1) % l.length, hjn'⟩ :=
      hnd'.get_inj_iff.mp (by rw [hkw, hl'j])
    exact congrArg Fin.val h3
  simp only [list_prev_link, dif_pos hk]
  have hmn : ((link_swap l w v).indexOf w + (link_swap l w v).length - 1) %
      (link_swap l w v).length < (link_swap l w v).length :=
    Nat.mod_lt _ (by omega)
  have harith : ((link_swap l w v).indexOf w + (link_swap l w v).length - 1) %
      (link_swap l w v).length = l.indexOf w := by
    rw [hindexOf, hlen']
    exact cyc_prev_of_next hi h2
  have hi' : l.indexOf w < (link_swap l w v).length := by
    rw [hlen']
    exact hi
  have hfin : (⟨((link_swap l w v).indexOf w + (link_swap l w v).length - 1) %
      (link_swap l w v).length, hmn⟩ : Fin (link_swap l w v).length) =
      ⟨l.indexOf w, hi'⟩ := Fin.ext harith
  rw [hfin, link_swap_get l w v _ hi hi', hiw, swap_val_left]

theorem WF_retarget (s : VeloxState) (hwf : WF s) (i : Nat)
    (hi : i < s.workspaces.length) (fl : Nat → Bool) :
    WF ⟨s.workspaces, i, fl⟩ := by
  obtain ⟨_, hok, hdisj⟩ := hwf
  exact ⟨hi, hok, hdisj⟩

theorem WF_update_active (s : VeloxState) (hwf : WF s) (ws' : velox_workspace)
    (fl : Nat → Bool)
    (hsub : ∀ a, a ∈ wsWindows ws' → a ∈ wsWindows (active_ws s))
    (hnd : (wsWindows ws').Nodup)
    (hfoc : ws'.tiled.windows ≠ [] → focusIn ws'.tiled.focus ws'.tiled.windows) :
    WF ⟨s.workspaces.set s.active ws', s.active, fl⟩ := by
  obtain ⟨ha, hok, hdisj⟩ := hwf
  have hat : ∀ k, workspace_at ⟨s.workspaces.set s.active ws', s.active, fl⟩ k =
      if k = s.active then ws' else workspace_at s k := by
    intro k
    by_cases hk : k = s.active
    · subst hk
      simp only [if_pos rfl]
      exact getD_set_self _ _ _ _ ha
    · simp only [if_neg hk]
      exact getD_set_ne _ _ _ _ _ (fun h => hk h.symm)
  refine ⟨by simpa using ha, ?_, ?_⟩
  · intro i hi
    rw [List.length_set] at hi
    rw [hat i]
    by_cases hk : i = s.active
    · rw [if_pos hk]
      exact ⟨hnd, hfoc⟩
    · rw [if_neg hk]
      exact hok i hi
  · intro i hi j hj hij a hai
    rw [List.length_set] at hi hj
    rw [hat i] at hai
    rw [hat j]
    by_cases hia : i = s.active
    · rw [if_pos hia] at hai
      have hja : j ≠ s.active := fun h => hij (hia.trans h.symm)
      rw [if_neg hja]
      exact hdisj s.active ha j hj (fun h => hja h.symm) a (hsub a hai)
    · rw [if_neg hia] at hai
      by_cases hja : j = s.active
      · rw [if_pos hja]
        intro hcon
        have h1 : a ∈ wsWindows (active_ws s) := hsub a hcon
        exact hdisj s.active ha i hi (fun h => hia h.symm) a h1 hai
      · rw [if_neg hja]
        exact hdisj i hi j hj hij a hai


theorem WF_move_update (s : VeloxState) (hwf : WF s) (j : Nat)
    (hj : j < s.workspaces.length) (hne : j ≠ s.active)
    (src' tgt' : velox_workspace) (w : Nat) (fl : Nat → Bool)
    (hw : w ∈ wsWindows (active_ws s))
    (hsrc_sub : ∀ a, a ∈ wsWindows src' → a ∈ wsWindows (active_ws s) ∧ a ≠ w)
    (htgt_sub : ∀ a, a ∈ wsWindows tgt' → a = w ∨ a ∈ wsWindows (workspace_at s j))
    (hsrc_nd : (wsWindows src').Nodup)
    (htgt_nd : (wsWindows tgt').Nodup)
    (hsrc_foc : src'.tiled.windows ≠ [] → focusIn src'.tiled.focus src'.tiled.windows)
    (htgt_foc : tgt'.tiled.windows ≠ [] → focusIn tgt'.tiled.focus tgt'.tiled.windows) :
    WF ⟨(s.workspaces.set s.active src').set j tgt', s.active, fl⟩ := by
  obtain ⟨ha, hok, hdisj⟩ := hwf
  have hj' : j < (s.workspaces.set s.active src').length := by simpa using hj
  have hat : ∀ k, workspace_at ⟨(s.workspaces.set s.active src').set j tgt', s.active, fl⟩ k =
      if k = j then tgt' else if k = s.active then src' else workspace_at s k := by
    intro k
    show ((s.workspaces.set s.active src').set j tgt').getD k null_workspace = _
    by_cases hkj : k = j
    · rw [if_pos hkj, hkj]
      exact getD_set_self _ _ _ _ hj'
    · rw [if_neg hkj, getD_set_ne _ _ _ _ _ (fun h => hkj h.symm)]
      by_cases hka : k = s.active
      · rw [if_pos hka, hka]
        exact getD_set_self _ _ _ _ ha
      · rw [if_neg hka]
        exact getD_set_ne _ _ _ _ _ (fun h => hka h.symm)
  have hmem_old : ∀ k, ∀ a,
      a ∈ wsWindows (workspace_at
        ⟨(s.workspaces.set s.active src').set j tgt', s.active, fl⟩ k) →
      (k = j ∧ a ∈ wsWindows tgt') ∨ (k ≠ j ∧ k = s.active ∧ a ∈ wsWindows src') ∨
      (k ≠ j ∧ k ≠ s.active ∧ a ∈ wsWindows (workspace_at s k)) := by
    intro k a hmem
    rw [hat k] at hmem
    by_cases hkj : k = j
    · rw [if_pos hkj] at hmem
      exact Or.inl ⟨hkj, hmem⟩
    · rw [if_neg hkj] at hmem
      by_cases hka : k = s.active
      · rw [if_pos hka] at hmem
        exact Or.inr (Or.inl ⟨hkj, hka, hmem⟩)
      · rw [if_neg hka] at hmem
        exact Or.inr (Or.inr ⟨hkj, hka, hmem⟩)
  refine ⟨by simpa using ha, ?_, ?_⟩
  · intro i hi
    rw [List.length_set, List.length_set] at hi
    rw [hat i]
    by_cases hij : i = j
    · rw [if_pos hij]
      exact ⟨htgt_nd, htgt_foc⟩
    · rw [if_neg hij]
      by_cases hia : i = s.active
      · rw [if_pos hia]
        exact ⟨hsrc_nd, hsrc_foc⟩
      · rw [if_neg hia]
        exact hok i hi
  · intro i hi m hm him a hai
    rw [List.length_set, List.length_set] at hi hm
    have h1 := hmem_old i a hai
    intro hcon
    have h2 := hmem_old m a hcon
    rcases h1 with ⟨hij, hta⟩ | ⟨hij, hia, hsa⟩ | ⟨hij, hia, hoa⟩
    · -- a comes from the target workspace
      rcases htgt_sub a hta with rfl | hold
      · -- a is the moved window w
        rcases h2 with ⟨hmj, _⟩ | ⟨_, _, hsa2⟩ | ⟨_, hma, hoa2⟩
        · exact him (hij.trans hmj.symm)
        · exact (hsrc_sub a hsa2).2 rfl
        · exact hdisj s.active ha m hm (fun h => hma h.symm) a hw hoa2
      · -- a was already in the old target workspace
        rcases h2 with ⟨hmj, _⟩ | ⟨_, _, hsa2⟩ | ⟨hmj, _, hoa2⟩
        · exact him (hij.trans hmj.symm)
        · exact hdisj j hj s.active ha hne a hold (hsrc_sub a hsa2).1
        · exact hdisj j hj m hm (fun h => hmj h.symm) a hold hoa2
    · -- a comes from the updated source (active) workspace
      obtain ⟨haold, hanew⟩ := hsrc_sub a hsa
      rcases h2 with ⟨hmj, hta2⟩ | ⟨_, hma, _⟩ | ⟨_, hma, hoa2⟩
      · rcases htgt_sub a hta2 with rfl | hold
        · exact hanew rfl
        · exact hdisj s.active ha j hj (Ne.symm hne) a haold hold
      · exact him (hia.trans hma.symm)
      · exact hdisj s.active ha m hm (fun h => hma h.symm) a haold hoa2
    · -- a comes from an untouched workspace
      rcases h2 with ⟨hmj, hta2⟩ | ⟨_, hma, hsa2⟩ | ⟨_, hma, hoa2⟩
      · rcases htgt_sub a hta2 with rfl | hold
        · exact hdisj s.active ha i hi (fun h => hia h.symm) a hw hoa
        · exact hdisj i hi j hj hij a hoa hold
      · exact hdisj i hi s.active ha hia a hoa (hsrc_sub a hsa2).1
      · exact hdisj i hi m hm him a hoa hoa2

theorem focusIn_cons {o : Option Nat} {l : List Nat} {x : Nat}
    (h : focusIn o l) : focusIn o (x :: l) := by
  cases o with
  | none => exact h.elim
  | some w => exact List.mem_cons_of_mem x h

theorem wsOK_tiled_nodup {ws : velox_workspace} (h : wsOK ws) :
    ws.tiled.windows.Nodup :=
  h.1.of_append_left

theorem wsOK_floated_nodup {ws : velox_workspace} (h : wsOK ws) :
    ws.floated.Nodup :=
  h.1.of_append_right

theorem wsOK_tiled_floated_disj {ws : velox_workspace} (h : wsOK ws) {a : Nat}
    (ha : a ∈ ws.tiled.windows) : a ∉ ws.floated :=
  (List.nodup_append.mp h.1).2.2 ha

theorem WF_of_set_workspace (s : VeloxState) (hwf : WF s) (i : Nat)
    (hok : i < s.workspaces.length) : WF (set_workspace s i).1 := by
  simp only [set_workspace]
  by_cases h : i = s.active
  · rw [if_pos h]
    exact hwf
  · rw [if_neg h]
    exact WF_retarget s hwf i hok s.floating

theorem WF_of_set_focus_type (s : VeloxState) (hwf : WF s)
    (ft : velox_workspace_focus_type) : WF (set_focus_type s ft).1 := by
  have hsrcOK : wsOK (active_ws s) := hwf.2.1 s.active hwf.1
  simp only [set_focus_type]
  by_cases h1 : (active_ws s).focus_type = ft
  · rw [if_pos h1]
    exact hwf
  · rw [if_neg h1]
    by_cases h2 : ft = TILE ∧ (active_ws s).tiled.windows ≠ []
    · rw [if_pos h2]
      exact WF_update_active s hwf _ _ (fun a ha => ha) hsrcOK.1 hsrcOK.2
    · rw [if_neg h2]
      by_cases h3 : ft = FLOAT ∧ (active_ws s).floated ≠ []
      · rw [if_pos h3]
        exact WF_update_active s hwf _ _ (fun a ha => ha) hsrcOK.1 hsrcOK.2
      · rw [if_neg h3]
        exact hwf

theorem WF_of_focus_next (s : VeloxState) (hwf : WF s) : WF (focus_next s).1 := by
  have hsrcOK : wsOK (active_ws s) := hwf.2.1 s.active hwf.1
  simp only [focus_next]
  by_cases hft : (active_ws s).focus_type = TILE
  · rw [if_pos hft]
    by_cases hlen : (active_ws s).tiled.windows.length < 2
    · rw [if_pos hlen]
      exact hwf
    · rw [if_neg hlen]
      refine WF_update_active s hwf _ _ (fun a ha => ha) hsrcOK.1 ?_
      intro hne
      have hfoc := hsrcOK.2 hne
      cases hcur : (active_ws s).tiled.focus with
      | none =>
        rw [hcur] at hfoc
        exact hfoc.elim
      | some w =>
        rw [hcur] at hfoc
        exact list_next_link_some_mem hfoc
  · rw [if_neg hft]
    by_cases hlen : (active_ws s).floated.length < 2
    · rw [if_pos hlen]
      exact hwf
    · rw [if_neg hlen]
      cases hlast : (active_ws s).floated.getLast? with
      | none => exact hwf
      | some w =>
        have hperm : (wsWindows { active_ws s with
            floated := w :: (active_ws s).floated.dropLast }).Perm
            (wsWindows (active_ws s)) :=
          List.Perm.append_left _ (rotate_last_perm hlast)
        exact WF_update_active s hwf _ _ (fun a ha => hperm.mem_iff.mp ha)
          (hsrcOK.1.perm hperm.symm) hsrcOK.2

theorem WF_of_focus_previous (s : VeloxState) (hwf : WF s) :
    WF (focus_previous s).1 := by
  have hsrcOK : wsOK (active_ws s) := hwf.2.1 s.active hwf.1
  simp only [focus_previous]
  by_cases hft : (active_ws s).focus_type = TILE
  · rw [if_pos hft]
    by_cases hlen : (active_ws s).tiled.windows.length < 2
    · rw [if_pos hlen]
      exact hwf
    · rw [if_neg hlen]
      refine WF_update_active s hwf _ _ (fun a ha => ha) hsrcOK.1 ?_
      intro hne
      have hfoc := hsrcOK.2 hne
      cases hcur : (active_ws s).tiled.focus with
      | none =>
        rw [hcur] at hfoc
        exact hfoc.elim
      | some w =>
        rw [hcur] at hfoc
        exact list_prev_link_some_mem hfoc
  · cases hfl : (active_ws s).floated with
    | nil =>
      simp only [focus_previous, if_neg hft, hfl]
      exact hwf
    | cons w rest =>
      by_cases hlen : (w :: rest).length < 2
      · simp only [focus_previous, if_neg hft, hfl, if_pos hlen]
        exact hwf
      · simp only [focus_previous, if_neg hft, hfl, if_neg hlen]
        have hperm : (wsWindows { active_ws s with floated := rest ++ [w] }).Perm
            (wsWindows (active_ws s)) := by
          have h1 : (rest ++ [w]).Perm (active_ws s).floated := by
            rw [hfl]
            exact List.perm_append_singleton w rest
          exact List.Perm.append_left _ h1
        exact WF_update_active s hwf _ _ (fun a ha => hperm.mem_iff.mp ha)
          (hsrcOK.1.perm hperm.symm) hsrcOK.2

theorem WF_of_move_next (s : VeloxState) (hwf : WF s) : WF (move_next s).1 := by
  have hsrcOK : wsOK (active_ws s) := hwf.2.1 s.active hwf.1
  by_cases hft : (active_ws s).focus_type = TILE
  · by_cases hlen : (active_ws s).tiled.windows.length < 2
    · simp only [move_next, if_pos hft, if_pos hlen]
      exact hwf
    · cases hcur : (active_ws s).tiled.focus with
      | none =>
        simp only [move_next, if_pos hft, if_neg hlen, hcur]
        exact hwf
      | some w =>
        have hne : (active_ws s).tiled.windows ≠ [] := by
          intro h0
          apply hlen
          rw [h0]
          decide
        have hw : w ∈ (active_ws s).tiled.windows := by
          have h1 := hsrcOK.2 hne
          rw [hcur] at h1
          exact h1
        cases hnext : list_next_link (active_ws s).tiled.windows (some w) with
        | none =>
          simp only [move_next, if_pos hft, if_neg hlen, hcur, hnext]
          exact hwf
        | some v =>
          simp only [move_next, if_pos hft, if_neg hlen, hcur, hnext]
          have hv : v ∈ (active_ws s).tiled.windows := by
            have h1 := list_next_link_some_mem hw
            rw [hnext] at h1
            exact h1
          have hperm : (link_swap (active_ws s).tiled.windows w v).Perm
              (active_ws s).tiled.windows :=
            link_swap_perm (wsOK_tiled_nodup hsrcOK) hw hv
          have hperm2 : ((link_swap (active_ws s).tiled.windows w v) ++
              (active_ws s).floated).Perm (wsWindows (active_ws s)) :=
            hperm.append_right _
          refine WF_update_active s hwf _ _ ?_ ?_ ?_
          · exact fun a ha => hperm2.mem_iff.mp ha
          · exact hsrcOK.1.perm hperm2.symm
          · intro _
            show w ∈ link_swap (active_ws s).tiled.windows w v
            exact hperm.mem_iff.mpr hw
  · simp only [move_next, if_neg hft]
    exact hwf

theorem WF_of_move_previous (s : VeloxState) (hwf : WF s) :
    WF (move_previous s).1 := by
  have hsrcOK : wsOK (active_ws s) := hwf.2.1 s.active hwf.1
  by_cases hft : (active_ws s).focus_type = TILE
  · by_cases hlen : (active_ws s).tiled.windows.length < 2
    · simp only [move_previous, if_pos hft, if_pos hlen]
      exact hwf
    · cases hcur : (active_ws s).tiled.focus with
      | none =>
        simp only [move_previous, if_pos hft, if_neg hlen, hcur]
        exact hwf
      | some w =>
        have hne : (active_ws s).tiled.windows ≠ [] := by
          intro h0
          apply hlen
          rw [h0]
          decide
        have hw : w ∈ (active_ws s).tiled.windows := by
          have h1 := hsrcOK.2 hne
          rw [hcur] at h1
          exact h1
        cases hprev : list_prev_link (active_ws s).tiled.windows (some w) with
        | none =>
          simp only [move_previous, if_pos hft, if_neg hlen, hcur, hprev]
          exact hwf
        | some v =>
          simp only [move_previous, if_pos hft, if_neg hlen, hcur, hprev]
          have hv : v ∈ (active_ws s).tiled.windows := by
            have h1 := list_prev_link_some_mem hw
            rw [hprev] at h1
            exact h1
          have hperm : (link_swap (active_ws s).tiled.windows w v).Perm
              (active_ws s).tiled.windows :=
            link_swap_perm (wsOK_tiled_nodup hsrcOK) hw hv
          have hperm2 : ((link_swap (active_ws s).tiled.windows w v) ++
              (active_ws s).floated).Perm (wsWindows (active_ws s)) :=
            hperm.append_right _
          refine WF_update_active s hwf _ _ ?_ ?_ ?_
          · exact fun a ha => hperm2.mem_iff.mp ha
          · exact hsrcOK.1.perm hperm2.symm
          · intro _
            show w ∈ link_swap (active_ws s).tiled.windows w v
            exact hperm.mem_iff.mpr hw
  · simp only [move_previous, if_neg hft]
    exact hwf

theorem WF_of_toggle_floating (s : VeloxState) (hwf : WF s) :
    WF (toggle_floating s).1 := by
  have hsrcOK : wsOK (active_ws s) := hwf.2.1 s.active hwf.1
  by_cases hft : (active_ws s).focus_type = TILE
  · simp only [toggle_floating, if_pos hft]
    by_cases hemp : (active_ws s).tiled.windows = []
    · rw [if_pos hemp]
      exact hwf
    · rw [if_neg hemp]
      cases hcur : (active_ws s).tiled.focus with
      | none => exact hwf
      | some w =>
        have hw : w ∈ (active_ws s).tiled.windows := by
          have h1 := hsrcOK.2 hemp
          rw [hcur] at h1
          exact h1
        have hperm : (((active_ws s).tiled.windows.erase w) ++
            (w :: (active_ws s).floated)).Perm (wsWindows (active_ws s)) :=
          List.perm_middle.trans ((List.perm_cons_erase hw).symm.append_right _)
        refine WF_update_active s hwf _ _ (fun a ha => hperm.mem_iff.mp ha)
          (hsrcOK.1.perm hperm.symm) ?_
        intro hne2
        exact list_next_link_mem_erase (wsOK_tiled_nodup hsrcOK) hw hne2
  · cases hfl : (active_ws s).floated with
    | nil =>
      simp only [toggle_floating, if_neg hft, hfl]
      exact hwf
    | cons w rest =>
      simp only [toggle_floating, if_neg hft, hfl]
      have hperm : ((w :: (active_ws s).tiled.windows) ++ rest).Perm
          (wsWindows (active_ws s)) := by
        show ((w :: (active_ws s).tiled.windows) ++ rest).Perm
          ((active_ws s).tiled.windows ++ (active_ws s).floated)
        rw [hfl]
        exact List.perm_middle.symm
      refine WF_update_active s hwf _ _ (fun a ha => hperm.mem_iff.mp ha)
        (hsrcOK.1.perm hperm.symm) ?_
      intro _
      show w ∈ w :: (active_ws s).tiled.windows
      exact List.mem_cons_self w _

theorem WF_of_move_focus (s : VeloxState) (hwf : WF s) (i : Nat)
    (hok : i < s.workspaces.length) : WF (move_focus_to_workspace s i).1 := by
  have hsrcOK : wsOK (active_ws s) := hwf.2.1 s.active hwf.1
  by_cases hft : (active_ws s).focus_type = TILE
  · by_cases hemp : (active_ws s).tiled.windows = []
    · simp only [move_focus_to_workspace, if_pos hft, if_pos hemp]
      exact hwf
    · cases hcur : (active_ws s).tiled.focus with
      | none =>
        simp only [move_focus_to_workspace, if_pos hft, if_neg hemp, hcur]
        exact hwf
      | some w =>
        have hw : w ∈ (active_ws s).tiled.windows := by
          have h1 := hsrcOK.2 hemp
          rw [hcur] at h1
          exact h1
        by_cases hidx : i = s.active
        · -- the target aliases the active workspace
          simp only [move_focus_to_workspace, if_pos hft, if_neg hemp, hcur, if_pos hidx]
          have hperm : ((w :: (active_ws s).tiled.windows.erase w) ++
              (active_ws s).floated).Perm (wsWindows (active_ws s)) :=
            (List.perm_cons_erase hw).symm.append_right _
          have hfoc1 : (w :: (active_ws s).tiled.windows.erase w) ≠ [] →
              focusIn (list_next_link (active_ws s).tiled.windows (some w))
                (w :: (active_ws s).tiled.windows.erase w) := by
            intro _
            exact focusIn_of_perm (List.perm_cons_erase hw)
              (list_next_link_some_mem hw)
          by_cases hfl : (active_ws s).floated = []
          · rw [if_pos hfl]
            refine WF_update_active s hwf _ _ ?_ ?_ ?_
            · exact fun a ha => hperm.mem_iff.mp ha
            · exact hsrcOK.1.perm hperm.symm
            · exact hfoc1
          · rw [if_neg hfl]
            refine WF_update_active s hwf _ _ ?_ ?_ ?_
            · exact fun a ha => hperm.mem_iff.mp ha
            · exact hsrcOK.1.perm hperm.symm
            · exact hfoc1
        · -- distinct source and target workspaces
          simp only [move_focus_to_workspace, if_pos hft, if_neg hemp, hcur, if_neg hidx]
          have htgtOK : wsOK (workspace_at s i) := hwf.2.1 i hok
          have hwmem : w ∈ wsWindows (active_ws s) := List.mem_append_left _ hw
          have hwnotin : w ∉ wsWindows (workspace_at s i) :=
            hwf.2.2 s.active hwf.1 i hok (fun h => hidx h.symm) w hwmem
          have hsrc_sub : ∀ a, a ∈ ((active_ws s).tiled.windows.erase w) ++
              (active_ws s).floated → a ∈ wsWindows (active_ws s) ∧ a ≠ w := by
            intro a ha
            rcases List.mem_append.mp ha with h | h
            · have h2 := ((wsOK_tiled_nodup hsrcOK).mem_erase_iff).mp h
              exact ⟨List.mem_append_left _ h2.2, h2.1⟩
            · refine ⟨List.mem_append_right _ h, fun heq => ?_⟩
              exact wsOK_tiled_floated_disj hsrcOK hw (heq ▸ h)
          have htgt_sub : ∀ a, a ∈ (w :: (workspace_at s i).tiled.windows) ++
              (workspace_at s i).floated → a = w ∨ a ∈ wsWindows (workspace_at s i) := by
            intro a ha
            rcases List.mem_cons.mp ha with h | h
            · exact Or.inl h
            · exact Or.inr h
          have hsrc_nd : (((active_ws s).tiled.windows.erase w) ++
              (active_ws s).floated).Nodup :=
            ((List.erase_sublist w _).append (List.Sublist.refl _)).nodup hsrcOK.1
          have htgt_nd : ((w :: (workspace_at s i).tiled.windows) ++
              (workspace_at s i).floated).Nodup :=
            List.nodup_cons.mpr ⟨hwnotin, htgtOK.1⟩
          have hsrc_foc : ((active_ws s).tiled.windows.erase w) ≠ [] →
              focusIn (if (active_ws s).tiled.windows.erase w = [] then none
                else list_next_link (active_ws s).tiled.windows (some w))
                ((active_ws s).tiled.windows.erase w) := by
            intro h
            rw [if_neg h]
            exact list_next_link_mem_erase (wsOK_tiled_nodup hsrcOK) hw h
          have htgt_foc : (w :: (workspace_at s i).tiled.windows) ≠ [] →
              focusIn (if (w :: (workspace_at s i).tiled.windows).length = 1 then
                  (w :: (workspace_at s i).tiled.windows).head?
                else (workspace_at s i).tiled.focus)
                (w :: (workspace_at s i).tiled.windows) := by
            intro _
            by_cases h1 : (w :: (workspace_at s i).tiled.windows).length = 1
            · rw [if_pos h1]
              exact List.mem_cons_self w _
            · rw [if_neg h1]
              have hA : (workspace_at s i).tiled.windows ≠ [] := by
                intro h0
                apply h1
                rw [h0]
                rfl
              exact focusIn_cons (htgtOK.2 hA)
          by_cases htfl : (workspace_at s i).floated = []
          · rw [if_pos htfl]
            exact WF_move_update s hwf i hok hidx _ _ w s.floating hwmem
              hsrc_sub htgt_sub hsrc_nd htgt_nd hsrc_foc htgt_foc
          · rw [if_neg htfl]
            exact WF_move_update s hwf i hok hidx _ _ w s.floating hwmem
              hsrc_sub htgt_sub hsrc_nd htgt_nd hsrc_foc htgt_foc
  · -- floating mode
    cases hfl : (active_ws s).floated with
    | nil =>
      simp only [move_focus_to_workspace, if_neg hft, hfl]
      exact hwf
    | cons w rest =>
      by_cases hidx : i = s.active
      · simp only [move_focus_to_workspace, if_neg hft, hfl, if_pos hidx]
        have hperm : ((active_ws s).tiled.windows ++ (rest ++ [w])).Perm
            (wsWindows (active_ws s)) := by
          show ((active_ws s).tiled.windows ++ (rest ++ [w])).Perm
            ((active_ws s).tiled.windows ++ (active_ws s).floated)
          rw [hfl]
          exact List.Perm.append_left _ (List.perm_append_singleton w rest)
        by_cases hte : (active_ws s).tiled.windows = []
        · rw [if_pos hte]
          refine WF_update_active s hwf _ _ ?_ ?_ ?_
          · exact fun a ha => hperm.mem_iff.mp ha
          · exact hsrcOK.1.perm hperm.symm
          · exact hsrcOK.2
        · rw [if_neg hte]
          refine WF_update_active s hwf _ _ ?_ ?_ ?_
          · exact fun a ha => hperm.mem_iff.mp ha
          · exact hsrcOK.1.perm hperm.symm
          · exact hsrcOK.2
      · simp only [move_focus_to_workspace, if_neg hft, hfl, if_neg hidx]
        have htgtOK : wsOK (workspace_at s i) := hwf.2.1 i hok
        have hwfl : w ∈ (active_ws s).floated := by
          rw [hfl]
          exact List.mem_cons_self w rest
        have hwmem : w ∈ wsWindows (active_ws s) := List.mem_append_right _ hwfl
        have hwnotin : w ∉ wsWindows (workspace_at s i) :=
          hwf.2.2 s.active hwf.1 i hok (fun h => hidx h.symm) w hwmem
        have hsrc_sub : ∀ a, a ∈ (active_ws s).tiled.windows ++ rest →
            a ∈ wsWindows (active_ws s) ∧ a ≠ w := by
          intro a ha
          rcases List.mem_append.mp ha with h | h
          · refine ⟨List.mem_append_left _ h, fun heq => ?_⟩
            exact wsOK_tiled_floated_disj hsrcOK (heq ▸ h) hwfl
          · refine ⟨List.mem_append_right _ (by rw [hfl]; exact List.mem_cons_of_mem _ h),
              fun heq => ?_⟩
            have hnd := wsOK_floated_nodup hsrcOK
            rw [hfl] at hnd
            exact (List.nodup_cons.mp hnd).1 (heq ▸ h)
        have htgt_sub : ∀ a, a ∈ (workspace_at s i).tiled.windows ++
            ((workspace_at s i).floated ++ [w]) →
            a = w ∨ a ∈ wsWindows (workspace_at s i) := by
          intro a ha
          rcases List.mem_append.mp ha with h | h
          · exact Or.inr (List.mem_append_left _ h)
          · rcases List.mem_append.mp h with h2 | h2
            · exact Or.inr (List.mem_append_right _ h2)
            · exact Or.inl (List.mem_singleton.mp h2)
        have hsrc_nd : ((active_ws s).tiled.windows ++ rest).Nodup := by
          have hnd : ((active_ws s).tiled.windows ++ (active_ws s).floated).Nodup :=
            hsrcOK.1
          rw [hfl] at hnd
          exact ((List.Sublist.refl _).append (List.sublist_cons_self w rest)).nodup hnd
        have htgt_nd : ((workspace_at s i).tiled.windows ++
            ((workspace_at s i).floated ++ [w])).Nodup := by
          have hp : ((workspace_at s i).tiled.windows ++
              ((workspace_at s i).floated ++ [w])).Perm
              (w :: ((workspace_at s i).tiled.windows ++ (workspace_at s i).floated)) := by
            have he : (workspace_at s i).tiled.windows ++
                ((workspace_at s i).floated ++ [w]) =
                ((workspace_at s i).tiled.windows ++ (workspace_at s i).floated) ++ [w] :=
              (List.append_assoc _ _ _).symm
            rw [he]
            exact List.perm_append_singleton w _
          exact hp.symm.nodup (List.nodup_cons.mpr ⟨hwnotin, htgtOK.1⟩)
        by_cases hte : (workspace_at s i).tiled.windows = []
        · rw [if_pos hte]
          exact WF_move_update s hwf i hok hidx _ _ w s.floating hwmem
            hsrc_sub htgt_sub hsrc_nd htgt_nd hsrcOK.2 htgtOK.2
        · rw [if_neg hte]
          exact WF_move_update s hwf i hok hidx _ _ w s.floating hwmem
            hsrc_sub htgt_sub hsrc_nd htgt_nd hsrcOK.2 htgtOK.2

theorem WF_applyCmd (c : VCmd) (s : VeloxState) (hwf : WF s) (hok : cmdOK c s) :
    WF (applyCmd c s).1 := by
  cases c with
  | cmd_set_workspace i => exact WF_of_set_workspace s hwf i hok
  | cmd_move_focus i => exact WF_of_move_focus s hwf i hok
  | cmd_set_focus_type ft => exact WF_of_set_focus_type s hwf ft
  | cmd_focus_next => exact WF_of_focus_next s hwf
  | cmd_focus_previous => exact WF_of_focus_previous s hwf
  | cmd_move_next => exact WF_of_move_next s hwf
  | cmd_move_previous => exact WF_of_move_previous s hwf
  | cmd_toggle_floating => exact WF_of_toggle_floating s hwf

/-- C1: for every workspace and after every command of the
Focus/Arrangement Controller (set_workspace, move_focus_to_workspace,
set_focus_type, focus_next, focus_previous, move_next, move_previous,
toggle_floating): if the workspace's focus_type is TILE and its tiled
window list is non-empty, the tiled focus cursor denotes a member of
that tiled list.  Well-formedness is preserved as well, so the
invariant holds along any command sequence. -/
theorem c1_focus_cursor_valid_after_commands (s : VeloxState) (c : VCmd)
    (hwf : WF s) (hok : cmdOK c s) :
    WF (applyCmd c s).1 ∧
    ∀ i, i < (applyCmd c s).1.workspaces.length →
      (workspace_at (applyCmd c s).1 i).focus_type = TILE →
      (workspace_at (applyCmd c s).1 i).tiled.windows ≠ [] →
      focusIn (workspace_at (applyCmd c s).1 i).tiled.focus
        (workspace_at (applyCmd c s).1 i).tiled.windows := by
  have h := WF_applyCmd c s hwf hok
  exact ⟨h, fun i hi _ hne => (h.2.1 i hi).2 hne⟩

/-- A concrete two-workspace state used to witness the claims. -/
def c1ex : VeloxState :=
  ⟨[⟨TILE, ⟨[1, 2], some 1⟩, [3], [⟨0⟩], 0, 0⟩,
    ⟨FLOAT, ⟨[4], some 4⟩, [5], [⟨0⟩], 0, 0⟩], 0, fun _ => false⟩

theorem c1_witness :
    WF (applyCmd VCmd.cmd_toggle_floating c1ex).1 ∧
    ∀ i, i < (applyCmd VCmd.cmd_toggle_floating c1ex).1.workspaces.length →
      (workspace_at (applyCmd VCmd.cmd_toggle_floating c1ex).1 i).focus_type = TILE →
      (workspace_at (applyCmd VCmd.cmd_toggle_floating c1ex).1 i).tiled.windows ≠ [] →
      focusIn (workspace_at (applyCmd VCmd.cmd_toggle_floating c1ex).1 i).tiled.focus
        (workspace_at (applyCmd VCmd.cmd_toggle_floating c1ex).1 i).tiled.windows :=
  c1_focus_cursor_valid_after_commands c1ex VCmd.cmd_toggle_floating
    (by decide) (by decide)

/-- C3: update_focus focuses the window at the tiled cursor in TILE mode
(clearing focus when the tiled list is empty), and focuses the first
floated window in FLOAT mode (clearing focus when the floated list is
empty); in particular FLOAT mode with an empty floated list, and TILE
mode with an empty tiled list, do not crash and clear focus. -/
theorem c3_update_focus_cases (ws : velox_workspace) :
    (ws.focus_type = TILE → ws.tiled.windows = [] → update_focus ws = none) ∧
    (ws.focus_type = TILE → ws.tiled.windows ≠ [] → update_focus ws = ws.tiled.focus) ∧
    (ws.focus_type = FLOAT → ws.floated = [] → update_focus ws = none) ∧
    (ws.focus_type = FLOAT → ws.floated ≠ [] → update_focus ws = ws.floated.head?) :=
  ⟨fun h1 h2 => by simp [update_focus, h1, h2],
   fun h1 h2 => by simp [update_focus, h1, h2],
   fun h1 h2 => by simp [update_focus, h1, h2],
   fun h1 h2 => by simp [update_focus, h1, h2]⟩

theorem c3_witness :
    update_focus ⟨FLOAT, ⟨[], none⟩, [], [], 0, 0⟩ = none :=
  (c3_update_focus_cases ⟨FLOAT, ⟨[], none⟩, [], [], 0, 0⟩).2.2.1 rfl rfl

/-- C9: set_workspace called with the active index is a no-op — the
state is unchanged and no effect (show, hide, focus or hook) fires. -/
theorem c9_set_workspace_same_noop (s : VeloxState)
    (h : s.active < s.workspaces.length) :
    set_workspace s s.active = (s, []) := by
  simp [set_workspace]

theorem c9_witness : set_workspace c1ex 0 = (c1ex, []) :=
  c9_set_workspace_same_noop c1ex (by decide)

/-- C4: after set_layout with a layout link L of the active workspace's
layouts list, the layout cursor equals L, the workspace's layout state
equals that layout's default state (a full overwrite), and arrange is
invoked. -/
theorem c4_set_layout_resets_state (s : VeloxState)
    (hA : s.active < s.workspaces.length) (L : Nat)
    (hL : L < (active_ws s).layouts.length) :
    (workspace_at (set_layout s L).1 s.active).layout = L ∧
    (workspace_at (set_layout s L).1 s.active).state =
      ((active_ws s).layouts.getD L ⟨0⟩).default_state ∧
    (set_layout s L).2 = [VEffect.arrange_call] := by
  have hws : workspace_at (set_layout s L).1 s.active =
      { active_ws s with
          layout := L
          state := ((active_ws s).layouts.getD L ⟨0⟩).default_state } := by
    show (s.workspaces.set s.active _).getD s.active null_workspace = _
    exact getD_set_self _ _ _ _ hA
  rw [hws]
  exact ⟨rfl, rfl, rfl⟩

theorem c4_witness :
    (workspace_at (set_layout c1ex 0).1 0).layout = 0 ∧
    (workspace_at (set_layout c1ex 0).1 0).state =
      ((active_ws c1ex).layouts.getD 0 ⟨0⟩).default_state ∧
    (set_layout c1ex 0).2 = [VEffect.arrange_call] :=
  c4_set_layout_resets_state c1ex (by decide) 0 (by decide)

theorem workspace_at_set_active (s : VeloxState) (ws' : velox_workspace)
    (fl : Nat → Bool) (h : s.active < s.workspaces.length) :
    workspace_at ⟨s.workspaces.set s.active ws', s.active, fl⟩ s.active = ws' :=
  getD_set_self _ _ _ _ h

theorem workspace_at_set2_active (s : VeloxState) (src' tgt' : velox_workspace)
    (j : Nat) (fl : Nat → Bool) (hA : s.active < s.workspaces.length)
    (hne : j ≠ s.active) :
    workspace_at ⟨(s.workspaces.set s.active src').set j tgt', s.active, fl⟩
      s.active = src' := by
  show ((s.workspaces.set s.active src').set j tgt').getD s.active null_workspace = src'
  rw [getD_set_ne _ _ _ _ _ hne]
  exact getD_set_self _ _ _ _ hA

theorem workspace_at_set2_target (s : VeloxState) (src' tgt' : velox_workspace)
    (j : Nat) (fl : Nat → Bool) (hj : j < s.workspaces.length) :
    workspace_at ⟨(s.workspaces.set s.active src').set j tgt', s.active, fl⟩ j = tgt' :=
  getD_set_self _ _ _ _ (by simpa using hj)

/-- C10: move_focus_to_workspace never compares the target index with
the active one; called with the active workspace's own index in tiled
mode with a non-empty tiled list it relocates the focused window to the
front of that same tiled list, emits a hide for that window even though
the workspace stays visible, and sets the tiled cursor to the window's
former cyclic successor. -/
theorem c10_move_focus_same_workspace (s : VeloxState)
    (hA : s.active < s.workspaces.length)
    (hft : (active_ws s).focus_type = TILE)
    (hne : (active_ws s).tiled.windows ≠ [])
    (w : Nat) (hfoc : (active_ws s).tiled.focus = some w) :
    (workspace_at (move_focus_to_workspace s s.active).1 s.active).tiled.windows =
      w :: (active_ws s).tiled.windows.erase w ∧
    (workspace_at (move_focus_to_workspace s s.active).1 s.active).tiled.focus =
      list_next_link (active_ws s).tiled.windows (some w) ∧
    VEffect.hide_window w ∈ (move_focus_to_workspace s s.active).2 := by
  simp only [move_focus_to_workspace, if_pos hft, if_neg hne, hfoc,
    if_pos (Eq.refl s.active), ite_true]
  by_cases hfl : (active_ws s).floated = []
  · rw [if_pos hfl]
    rw [workspace_at_set_active s _ _ hA]
    exact ⟨rfl, rfl, by simp⟩
  · rw [if_neg hfl]
    rw [workspace_at_set_active s _ _ hA]
    exact ⟨rfl, rfl, by simp⟩

/-- A concrete single-workspace state for the self-move scenario. -/
def c10ex : VeloxState :=
  ⟨[⟨TILE, ⟨[1, 2], some 1⟩, [], [⟨0⟩], 0, 0⟩], 0, fun _ => false⟩

theorem c10_witness :
    (workspace_at (move_focus_to_workspace c10ex 0).1 0).tiled.windows =
      1 :: (active_ws c10ex).tiled.windows.erase 1 ∧
    (workspace_at (move_focus_to_workspace c10ex 0).1 0).tiled.focus =
      list_next_link (active_ws c10ex).tiled.windows (some 1) ∧
    VEffect.hide_window 1 ∈ (move_focus_to_workspace c10ex 0).2 :=
  c10_move_focus_same_workspace c10ex (by decide) (by decide) (by decide) 1 (by decide)

/-- A concrete state refuting C2 as stated: the sole tiled window of
workspace 0 moves to workspace 1 while workspace 0's floated list is
empty. -/
def c2ex : VeloxState :=
  ⟨[⟨TILE, ⟨[1], some 1⟩, [], [⟨0⟩], 0, 0⟩,
    ⟨TILE, ⟨[], none⟩, [], [⟨0⟩], 0, 0⟩], 0, fun _ => false⟩

/-- C2 counterexample: the claim's final "otherwise" case holds here
(the source tiled list becomes empty but the floated list is empty, so
no mode flip happens), yet the source cursor is set to the sentinel and
not to the successor computed before the move (which is the window
itself). -/
theorem c2_counterexample :
    (active_ws c2ex).floated = [] ∧
    (active_ws c2ex).tiled.windows.erase 1 = [] ∧
    list_next_link (active_ws c2ex).tiled.windows (some 1) = some 1 ∧
    (workspace_at (move_focus_to_workspace c2ex 1).1 0).tiled.focus = none ∧
    (workspace_at (move_focus_to_workspace c2ex 1).1 0).tiled.focus ≠ some 1 := by
  decide

/-- C2 (amended): move_focus_to_workspace in tiled mode with a
non-empty source tiled list and a target index distinct from the
active one: the focused window is relocated to the front of the
target's tiled list; if the target tiled list was empty, the target's
cursor is set to the inserted window; the source tiled list loses the
window; if the source tiled list becomes empty, its cursor is set to
the sentinel and — when the source floated list is non-empty — its
focus_type flips to FLOAT; if the source tiled list remains non-empty,
its cursor is set to the successor of the moved window computed before
the move; if the target's floated list is empty, the target's
focus_type is forced to TILE. -/
theorem c2_move_focus_tiled_amended (s : VeloxState)
    (hA : s.active < s.workspaces.length) (index : Nat)
    (hidx : index < s.workspaces.length) (hne : index ≠ s.active)
    (hft : (active_ws s).focus_type = TILE)
    (hnonempty : (active_ws s).tiled.windows ≠ [])
    (w : Nat) (hfoc : (active_ws s).tiled.focus = some w) :
    (workspace_at (move_focus_to_workspace s index).1 index).tiled.windows =
      w :: (workspace_at s index).tiled.windows ∧
    ((workspace_at s index).tiled.windows = [] →
      (workspace_at (move_focus_to_workspace s index).1 index).tiled.focus = some w) ∧
    (workspace_at (move_focus_to_workspace s index).1 s.active).tiled.windows =
      (active_ws s).tiled.windows.erase w ∧
    ((active_ws s).tiled.windows.erase w = [] →
      (workspace_at (move_focus_to_workspace s index).1 s.active).tiled.focus = none ∧
      ((active_ws s).floated ≠ [] →
        (workspace_at (move_focus_to_workspace s index).1 s.active).focus_type =
          FLOAT)) ∧
    ((active_ws s).tiled.windows.erase w ≠ [] →
      (workspace_at (move_focus_to_workspace s index).1 s.active).tiled.focus =
        list_next_link (active_ws s).tiled.windows (some w)) ∧
    ((workspace_at s index).floated = [] →
      (workspace_at (move_focus_to_workspace s index).1 index).focus_type = TILE) := by
  simp only [move_focus_to_workspace, if_pos hft, if_neg hnonempty, hfoc, if_neg hne]
  by_cases htfl : (workspace_at s index).floated = []
  · rw [if_pos htfl]
    rw [workspace_at_set2_active s _ _ index s.floating hA hne,
      workspace_at_set2_target s _ _ index s.floating hidx]
    refine ⟨rfl, ?_, rfl, ?_, ?_, fun _ => rfl⟩
    · intro hte
      rw [hte]
      rfl
    · intro hse
      refine ⟨by rw [if_pos hse], fun hfl2 => by rw [if_pos ⟨hse, hfl2⟩]⟩
    · intro hse
      rw [if_neg hse]
  · rw [if_neg htfl]
    rw [workspace_at_set2_active s _ _ index s.floating hA hne,
      workspace_at_set2_target s _ _ index s.floating hidx]
    refine ⟨rfl, ?_, rfl, ?_, ?_, fun h => absurd h htfl⟩
    · intro hte
      rw [hte]
      rfl
    · intro hse
      refine ⟨by rw [if_pos hse], fun hfl2 => by rw [if_pos ⟨hse, hfl2⟩]⟩
    · intro hse
      rw [if_neg hse]

/-- A concrete state exercising the amended C2 with a surviving source
list. -/
def c2wex : VeloxState :=
  ⟨[⟨TILE, ⟨[1, 2], some 1⟩, [], [⟨0⟩], 0, 0⟩,
    ⟨TILE, ⟨[], none⟩, [], [⟨0⟩], 0, 0⟩], 0, fun _ => false⟩

theorem c2_witness :
    (workspace_at (move_focus_to_workspace c2wex 1).1 1).tiled.windows =
      1 :: (workspace_at c2wex 1).tiled.windows ∧
    ((workspace_at c2wex 1).tiled.windows = [] →
      (workspace_at (move_focus_to_workspace c2wex 1).1 1).tiled.focus = some 1) ∧
    (workspace_at (move_focus_to_workspace c2wex 1).1 0).tiled.windows =
      (active_ws c2wex).tiled.windows.erase 1 ∧
    ((active_ws c2wex).tiled.windows.erase 1 = [] →
      (workspace_at (move_focus_to_workspace c2wex 1).1 0).tiled.focus = none ∧
      ((active_ws c2wex).floated ≠ [] →
        (workspace_at (move_focus_to_workspace c2wex 1).1 0).focus_type = FLOAT)) ∧
    ((active_ws c2wex).tiled.windows.erase 1 ≠ [] →
      (workspace_at (move_focus_to_workspace c2wex 1).1 0).tiled.focus =
        list_next_link (active_ws c2wex).tiled.windows (some 1)) ∧
    ((workspace_at c2wex 1).floated = [] →
      (workspace_at (move_focus_to_workspace c2wex 1).1 1).focus_type = TILE) :=
  c2_move_focus_tiled_amended c2wex (by decide) 1 (by decide) (by decide)
    (by decide) (by decide) 1 (by decide)

theorem toggle_floating_tile_state (s : VeloxState)
    (hft : (active_ws s).focus_type = TILE)
    (hne : (active_ws s).tiled.windows ≠ [])
    (w : Nat) (hfoc : (active_ws s).tiled.focus = some w) :
    (toggle_floating s).1 = ⟨s.workspaces.set s.active
      { active_ws s with
          focus_type := FLOAT
          tiled := ⟨(active_ws s).tiled.windows.erase w,
            list_next_link (active_ws s).tiled.windows (some w)⟩
          floated := w :: (active_ws s).floated },
      s.active, fun x => if x = w then true else s.floating x⟩ := by
  simp only [toggle_floating, if_pos hft, if_neg hne, hfoc]

theorem toggle_floating_float_state (s : VeloxState) (ws : velox_workspace)
    (hws : active_ws s = ws) (hft : ws.focus_type ≠ TILE)
    (w : Nat) (rest : List Nat) (hfl : ws.floated = w :: rest) :
    (toggle_floating s).1 = ⟨s.workspaces.set s.active
      { ws with
          focus_type := TILE
          tiled := ⟨w :: ws.tiled.windows, some w⟩
          floated := rest },
      s.active, fun x => if x = w then false else s.floating x⟩ := by
  subst hws
  simp only [toggle_floating, if_neg hft, hfl]

/-- A concrete state refuting C5 as stated: tiled [1, 2, 3, 4] with the
focus on 2. -/
def c5ex : VeloxState :=
  ⟨[⟨TILE, ⟨[1, 2, 3, 4], some 2⟩, [], [⟨0⟩], 0, 0⟩], 0, fun _ => false⟩

/-- C5 counterexample: after toggling window 2 out and back, the tiled
list is [2, 1, 3, 4] while the tiled focus cursor at reinsertion time
was window 3 — window 2 is neither at the index right after window 3
nor window 3's cyclic successor, so it is not reinserted "immediately
after the current tiled focus cursor". -/
theorem c5_counterexample :
    (workspace_at (toggle_floating (toggle_floating c5ex).1).1 0).tiled.windows =
      [2, 1, 3, 4] ∧
    (workspace_at (toggle_floating c5ex).1 0).tiled.focus = some 3 ∧
    list_next_link [2, 1, 3, 4] (some 3) ≠ some 2 ∧
    [2, 1, 3, 4].indexOf 2 ≠ [2, 1, 3, 4].indexOf 3 + 1 := by
  decide

/-- C5 (amended): for a workspace in tiled mode with a focused window W
in a non-empty tiled list, toggle_floating twice leaves W's floating
flag false and reinserts W into the workspace's tiled list at its
front, with the tiled focus cursor set to W (not necessarily W's
original position). -/
theorem c5_toggle_floating_roundtrip_amended (s : VeloxState)
    (hA : s.active < s.workspaces.length)
    (hft : (active_ws s).focus_type = TILE)
    (hne : (active_ws s).tiled.windows ≠ [])
    (w : Nat) (hfoc : (active_ws s).tiled.focus = some w) :
    (toggle_floating (toggle_floating s).1).1.floating w = false ∧
    (workspace_at (toggle_floating (toggle_floating s).1).1 s.active).tiled.windows.head? =
      some w ∧
    w ∈ (workspace_at (toggle_floating (toggle_floating s).1).1 s.active).tiled.windows ∧
    (workspace_at (toggle_floating (toggle_floating s).1).1 s.active).tiled.focus =
      some w := by
  have h1 := toggle_floating_tile_state s hft hne w hfoc
  have hws1 : active_ws (toggle_floating s).1 =
      { active_ws s with
          focus_type := FLOAT
          tiled := ⟨(active_ws s).tiled.windows.erase w,
            list_next_link (active_ws s).tiled.windows (some w)⟩
          floated := w :: (active_ws s).floated } := by
    rw [h1]
    exact workspace_at_set_active s _ _ hA
  have h2 := toggle_floating_float_state (toggle_floating s).1 _ hws1
    (by intro hcon; exact velox_workspace_focus_type.noConfusion hcon)
    w (active_ws s).floated rfl
  have hstep : (toggle_floating (toggle_floating s).1).1 =
      ⟨((toggle_floating s).1).workspaces.set ((toggle_floating s).1).active
        { active_ws s with
            focus_type := TILE
            tiled := ⟨w :: (active_ws s).tiled.windows.erase w, some w⟩
            floated := (active_ws s).floated },
        ((toggle_floating s).1).active,
        fun x => if x = w then false else ((toggle_floating s).1).floating x⟩ := h2
  rw [hstep, h1]
  have hacc : workspace_at
      (⟨(s.workspaces.set s.active
          { active_ws s with
              focus_type := FLOAT
              tiled := ⟨(active_ws s).tiled.windows.erase w,
                list_next_link (active_ws s).tiled.windows (some w)⟩
              floated := w :: (active_ws s).floated }).set s.active
          { active_ws s with
              focus_type := TILE
              tiled := ⟨w :: (active_ws s).tiled.windows.erase w, some w⟩
              floated := (active_ws s).floated },
        s.active, fun x => if x = w then false else
          if x = w then true else s.floating x⟩ : VeloxState) s.active =
      { active_ws s with
          focus_type := TILE
          tiled := ⟨w :: (active_ws s).tiled.windows.erase w, some w⟩
          floated := (active_ws s).floated } :=
    workspace_at_set_active
      ⟨s.workspaces.set s.active
        { active_ws s with
            focus_type := FLOAT
            tiled := ⟨(active_ws s).tiled.windows.erase w,
              list_next_link (active_ws s).tiled.windows (some w)⟩
            floated := w :: (active_ws s).floated },
        s.active, fun x => if x = w then false else
          if x = w then true else s.floating x⟩
      _ _ (by simpa using hA)
  rw [hacc]
  refine ⟨by simp, rfl, List.mem_cons_self w _, rfl⟩

theorem c5_witness :
    (toggle_floating (toggle_floating c5ex).1).1.floating 2 = false ∧
    (workspace_at (toggle_floating (toggle_floating c5ex).1).1 0).tiled.windows.head? =
      some 2 ∧
    2 ∈ (workspace_at (toggle_floating (toggle_floating c5ex).1).1 0).tiled.windows ∧
    (workspace_at (toggle_floating (toggle_floating c5ex).1).1 0).tiled.focus = some 2 :=
  c5_toggle_floating_roundtrip_amended c5ex (by decide) (by decide) (by decide) 2
    (by decide)

/-- A concrete floating-mode state with floated list [1, 2]. -/
def c6ex : VeloxState :=
  ⟨[⟨FLOAT, ⟨[], none⟩, [1, 2], [⟨0⟩], 0, 0⟩], 0, fun _ => false⟩

/-- C6 counterexample: focus_previous moves the first floated window to
the tail but passes that window to the protocol focus call, so after
the operation the first element of the floated list (2) is not the
window that was focused (1). -/
theorem c6_counterexample :
    (focus_previous c6ex).2 = [VEffect.focus_call (some 1), VEffect.restack_call] ∧
    (workspace_at (focus_previous c6ex).1 0).floated.head? = some 2 ∧
    some (2 : Nat) ≠ some 1 := by
  decide

/-- C6 (amended): after focus_next in floating mode and after
toggle_floating out of tiled mode, the first element of the floated
list is exactly the window passed to the protocol focus call; after
focus_previous in floating mode, the window passed to the focus call is
the old first element, which ends up as the last element of the floated
list, not its first. -/
theorem c6_floated_focus_amended (s : VeloxState)
    (hA : s.active < s.workspaces.length) :
    ((active_ws s).focus_type ≠ TILE → 2 ≤ (active_ws s).floated.length →
      ∀ w, (active_ws s).floated.getLast? = some w →
        (workspace_at (focus_next s).1 s.active).floated.head? = some w ∧
        VEffect.focus_call (some w) ∈ (focus_next s).2) ∧
    ((active_ws s).focus_type = TILE → (active_ws s).tiled.windows ≠ [] →
      ∀ w, (active_ws s).tiled.focus = some w →
        (workspace_at (toggle_floating s).1 s.active).floated.head? = some w ∧
        VEffect.focus_call (some w) ∈ (toggle_floating s).2) ∧
    ((active_ws s).focus_type ≠ TILE → 2 ≤ (active_ws s).floated.length →
      ∀ w rest, (active_ws s).floated = w :: rest →
        (workspace_at (focus_previous s).1 s.active).floated.getLast? = some w ∧
        VEffect.focus_call (some w) ∈ (focus_previous s).2) := by
  refine ⟨?_, ?_, ?_⟩
  · intro hft hlen w hlast
    have hlen' : ¬ (active_ws s).floated.length < 2 := by omega
    simp only [focus_next, if_neg hft, if_neg hlen', hlast]
    refine ⟨?_, by simp⟩
    rw [workspace_at_set_active s _ _ hA]
    rfl
  · intro hft hne w hfoc
    have h1 := toggle_floating_tile_state s hft hne w hfoc
    constructor
    · rw [h1, workspace_at_set_active s _ _ hA]
      rfl
    · simp only [toggle_floating, if_pos hft, if_neg hne, hfoc]
      have hupd : update_focus
          { active_ws s with
              focus_type := FLOAT
              tiled := ⟨(active_ws s).tiled.windows.erase w,
                list_next_link (active_ws s).tiled.windows (some w)⟩
              floated := w :: (active_ws s).floated } = some w := by
        simp [update_focus]
      rw [hupd]
      simp
  · intro hft hlen w rest hfl
    have hlen2 : 2 ≤ (w :: rest).length := by
      rw [← hfl]
      exact hlen
    have hlen' : ¬ (w :: rest).length < 2 := by omega
    simp only [focus_previous, if_neg hft, hfl, if_neg hlen']
    refine ⟨?_, by simp⟩
    rw [workspace_at_set_active s _ _ hA]
    show (rest ++ [w]).getLast? = some w
    exact List.getLast?_concat rest

theorem c6_witness :
    ((workspace_at (focus_next c6ex).1 0).floated.head? = some 2 ∧
      VEffect.focus_call (some 2) ∈ (focus_next c6ex).2) ∧
    ((workspace_at (toggle_floating c1ex).1 0).floated.head? = some 1 ∧
      VEffect.focus_call (some 1) ∈ (toggle_floating c1ex).2) ∧
    ((workspace_at (focus_previous c6ex).1 0).floated.getLast? = some 1 ∧
      VEffect.focus_call (some 1) ∈ (focus_previous c6ex).2) :=
  ⟨(c6_floated_focus_amended c6ex (by decide)).1 (by decide) (by decide) 2 (by decide),
   (c6_floated_focus_amended c1ex (by decide)).2.1 (by decide) (by decide) 1 (by decide),
   (c6_floated_focus_amended c6ex (by decide)).2.2 (by decide) (by decide) 1 [2]
     (by decide)⟩

theorem workspace_at_setset_active (s : VeloxState) (w1 w2 : velox_workspace)
    (fl : Nat → Bool) (h : s.active < s.workspaces.length) :
    workspace_at ⟨(s.workspaces.set s.active w1).set s.active w2, s.active, fl⟩
      s.active = w2 := by
  show ((s.workspaces.set s.active w1).set s.active w2).getD s.active null_workspace = w2
  exact getD_set_self _ _ _ _ (by simpa using h)

/-- A concrete tiled state [1, 2, 3] with the focus on 2. -/
def c7ex : VeloxState :=
  ⟨[⟨TILE, ⟨[1, 2, 3], some 2⟩, [], [⟨0⟩], 0, 0⟩], 0, fun _ => false⟩

/-- C7: in tiled mode with at least two tiled windows, move_next
followed by move_previous restores the tiled list (order and focus
cursor, which keeps denoting the same window); concretely, from
[1, 2, 3] with the focus on 2, move_next alone yields [1, 3, 2] with
the cursor still on 2. -/
theorem c7_move_next_move_previous :
    (∀ (s : VeloxState) (w : Nat), WF s →
      (active_ws s).focus_type = TILE →
      2 ≤ (active_ws s).tiled.windows.length →
      (active_ws s).tiled.focus = some w →
      (workspace_at (move_previous (move_next s).1).1 s.active).tiled =
        (active_ws s).tiled) ∧
    (workspace_at (move_next c7ex).1 0).tiled = ⟨[1, 3, 2], some 2⟩ := by
  constructor
  · intro s w hwf hft hlen hfoc
    have hA := hwf.1
    have hsrcOK : wsOK (active_ws s) := hwf.2.1 s.active hA
    have hnd := wsOK_tiled_nodup hsrcOK
    have hne : (active_ws s).tiled.windows ≠ [] := by
      intro h0
      rw [h0] at hlen
      exact absurd hlen (by decide)
    have hw : w ∈ (active_ws s).tiled.windows := by
      have h1 := hsrcOK.2 hne
      rw [hfoc] at h1
      exact h1
    have hlen' : ¬ (active_ws s).tiled.windows.length < 2 := by omega
    obtain ⟨v, hv⟩ : ∃ v, list_next_link (active_ws s).tiled.windows (some w) =
        some v := by
      have h1 := list_next_link_some_mem hw
      cases hx : list_next_link (active_ws s).tiled.windows (some w) with
      | none =>
        rw [hx] at h1
        exact h1.elim
      | some v => exact ⟨v, rfl⟩
    have h1 : (move_next s).1 = ⟨s.workspaces.set s.active
        { active_ws s with
            tiled := ⟨link_swap (active_ws s).tiled.windows w v, some w⟩ },
        s.active, s.floating⟩ := by
      simp only [move_next, if_pos hft, if_neg hlen', hfoc, hv]
    have hmid_ws2 : active_ws (⟨s.workspaces.set s.active
        { active_ws s with
            tiled := ⟨link_swap (active_ws s).tiled.windows w v, some w⟩ },
        s.active, s.floating⟩ : VeloxState) =
        { active_ws s with
            tiled := ⟨link_swap (active_ws s).tiled.windows w v, some w⟩ } :=
      workspace_at_set_active s _ _ hA
    have hprev : list_prev_link (link_swap (active_ws s).tiled.windows w v)
        (some w) = some v :=
      list_prev_link_link_swap hnd hw hlen hv
    simp only [move_previous, h1, hmid_ws2, if_pos hft, link_swap_length,
      if_neg hlen', hprev]
    rw [workspace_at_setset_active s _ _ _ hA]
    show (⟨link_swap (link_swap (active_ws s).tiled.windows w v) w v, some w⟩ :
      velox_tiled) = (active_ws s).tiled
    rw [link_swap_invol, ← hfoc]
  · decide

theorem c7_witness :
    (workspace_at (move_previous (move_next c7ex).1).1 0).tiled =
      (active_ws c7ex).tiled :=
  c7_move_next_move_previous.1 c7ex 2 (by decide) (by decide) (by decide) (by decide)

/-- Iterated application of next_workspace (state part). -/
def iterate_next_workspace (s : VeloxState) : Nat → VeloxState
  | 0 => s
  | n + 1 => iterate_next_workspace (next_workspace s).1 n

/-- The windows of the active (visible) workspace. -/
def visible_windows (s : VeloxState) : List Nat :=
  wsWindows (active_ws s)

theorem next_workspace_workspaces (s : VeloxState) :
    ((next_workspace s).1).workspaces = s.workspaces := by
  simp only [next_workspace, set_workspace]
  split <;> split <;> rfl

theorem next_workspace_active (s : VeloxState)
    (hA : s.active < s.workspaces.length)
    (hle : s.workspaces.length ≤ 256) :
    ((next_workspace s).1).active = (s.active + 1) % s.workspaces.length := by
  rcases Nat.lt_or_ge (s.active + 1) 256 with h256 | h256
  · have hi1 : (s.active + 1) % 256 = s.active + 1 := Nat.mod_eq_of_lt h256
    by_cases heq : s.active + 1 = s.workspaces.length
    · simp only [next_workspace, hi1, if_pos heq, set_workspace]
      by_cases h0 : (0 : Nat) = s.active
      · rw [if_pos h0]
        show s.active = (s.active + 1) % s.workspaces.length
        rw [heq, Nat.mod_self]
        omega
      · rw [if_neg h0]
        show (0 : Nat) = (s.active + 1) % s.workspaces.length
        rw [heq, Nat.mod_self]
    · simp only [next_workspace, hi1, if_neg heq, set_workspace]
      have hne : ¬ s.active + 1 = s.active := by omega
      rw [if_neg hne]
      show s.active + 1 = (s.active + 1) % s.workspaces.length
      rw [Nat.mod_eq_of_lt (by omega)]
  · have h255 : s.active = 255 := by omega
    have hn : s.workspaces.length = 256 := by omega
    have hi1 : (s.active + 1) % 256 = 0 := by
      rw [h255]
    have hne2 : ¬ (0 : Nat) = s.workspaces.length := by omega
    simp only [next_workspace, hi1, if_neg hne2, set_workspace]
    have hne3 : ¬ (0 : Nat) = s.active := by omega
    rw [if_neg hne3]
    show (0 : Nat) = (s.active + 1) % s.workspaces.length
    rw [h255, hn]

theorem iterate_next_state (s : VeloxState) (hA : s.active < s.workspaces.length)
    (hle : s.workspaces.length ≤ 256) (k : Nat) :
    (iterate_next_workspace s k).workspaces = s.workspaces ∧
    (iterate_next_workspace s k).active = (s.active + k) % s.workspaces.length := by
  induction k generalizing s with
  | zero => exact ⟨rfl, (Nat.mod_eq_of_lt hA).symm⟩
  | succ k ih =>
    have hw := next_workspace_workspaces s
    have hact := next_workspace_active s hA hle
    have hA' : ((next_workspace s).1).active <
        ((next_workspace s).1).workspaces.length := by
      rw [hw, hact]
      exact Nat.mod_lt _ (by omega)
    have hle' : ((next_workspace s).1).workspaces.length ≤ 256 := by
      rw [hw]
      exact hle
    obtain ⟨ih1, ih2⟩ := ih (next_workspace s).1 hA' hle'
    constructor
    · show (iterate_next_workspace (next_workspace s).1 k).workspaces = s.workspaces
      rw [ih1, hw]
    · show (iterate_next_workspace (next_workspace s).1 k).active =
        (s.active + (k + 1)) % s.workspaces.length
      rw [ih2, hw, hact, Nat.mod_add_mod]
      have harr : s.active + 1 + k = s.active + (k + 1) := by omega
      rw [harr]

/-- C8: applying next_workspace N times, where N is the workspace
count, returns the registry to the originally active workspace — each
step advances the active index cyclically, wrapping from the last
workspace to the first — and leaves the workspace vector, hence the set
of visible windows, unchanged. -/
theorem c8_next_workspace_cycle (s : VeloxState)
    (hA : s.active < s.workspaces.length) (hle : s.workspaces.length ≤ 256) :
    (iterate_next_workspace s s.workspaces.length).active = s.active ∧
    (iterate_next_workspace s s.workspaces.length).workspaces = s.workspaces ∧
    visible_windows (iterate_next_workspace s s.workspaces.length) =
      visible_windows s := by
  obtain ⟨h1, h2⟩ := iterate_next_state s hA hle s.workspaces.length
  have hact : (iterate_next_workspace s s.workspaces.length).active = s.active := by
    rw [h2, Nat.add_mod_right, Nat.mod_eq_of_lt hA]
  refine ⟨hact, h1, ?_⟩
  simp only [visible_windows, active_ws, workspace_at, h1, hact]

theorem c8_witness :
    (iterate_next_workspace c1ex 2).active = 0 ∧
    (iterate_next_workspace c1ex 2).workspaces = c1ex.workspaces ∧
    visible_windows (iterate_next_workspace c1ex 2) = visible_windows c1ex :=
  c8_next_workspace_cycle c1ex (by decide) (by decide)
